import Mathlib

/-!
# Verification of the agentic RAG orchestrator

A shallow embedding, in Lean 4, of the core algorithms of the
`xiaoke_agentic_rag` repository:

* `RecursiveTextSplitter` (`recursive_text_splitter.py`) — recursive,
  separator-priority text chunking with a hard-slicing fallback;
* `get_text_embedding` (`get_text_embedding.py`) — cache-aware batched
  embedding lookup that must preserve input order;
* `AgenticRAG` (`agentic_rag.py`) — the retrieve → generate → reflect →
  refine orchestration loop with query- and evidence-deduplication.

External collaborators (the vector retriever, the chat completion service,
Python's `json.loads`, the embedding HTTP API and the on-disk cache) are
modelled as explicit function parameters ("oracles"); all orchestration
logic, filtering, deduplication and termination control flow is translated
directly from the Python source.  Python strings are modelled as Lean
`String`s (`len` = number of unicode scalar values, as in Python), Python
`set`s of strings as `List String` used only through membership, and
Python `int` as `Int`.
-/

/-! ## Python string helpers -/

/-- Python `str.strip()`: remove leading and trailing whitespace. -/
def pyStrip (s : String) : String :=
  String.mk (((s.data.dropWhile Char.isWhitespace).reverse.dropWhile
    Char.isWhitespace).reverse)

/-- Python slice `text[i:i+n]`-style prefix of at most `n` characters. -/
def pyTake (s : String) (n : Nat) : String := String.mk (s.data.take n)

/-- Python slice `text[n:]`. -/
def pyDrop (s : String) (n : Nat) : String := String.mk (s.data.drop n)

/-! ## `recursive_text_splitter.py` — `RecursiveTextSplitter`

The splitter is a class holding `chunk_size` and a separator priority list;
both are passed explicitly here.  `_recursive_split` recurses along the
separator list, so it is defined by structural recursion on that list; the
loop body of `_process_splits` (which iterates over the pieces produced by
one separator, maintaining `current_chunk`, and re-enters
`_recursive_split` on oversized pieces with the *remaining* separators) is
factored into `process_splits_go`, parameterised by the re-entry function.
-/

namespace RecursiveTextSplitter

/-- The default separator priority list from `__init__`. -/
def default_separators : List String :=
  ["\n\n", "\n", "。", "！", "？", ";", ":", "，", ",", " ", ""]

/-- `_force_split`: hard character slicing into pieces of `chunk_size`
characters (`for i in range(0, len(text), chunk_size)`), keeping each
stripped piece when non-empty.  The iteration count is bounded by
`len(text)` whenever `chunk_size ≥ 1`, which the fuel argument realises;
`chunk_size = 0` raises `ValueError` in Python and is out of scope of
every claim (the fuel then merely truncates). -/
def force_split_go (chunk_size : Nat) : Nat → String → List String
  | 0, _ => []
  | fuel + 1, t =>
    if t.data = [] then []
    else
      let chunk := pyStrip (pyTake t chunk_size)
      (if chunk = "" then [] else [chunk]) ++
        force_split_go chunk_size fuel (pyDrop t chunk_size)

/-- `RecursiveTextSplitter._force_split`. -/
def force_split (chunk_size : Nat) (text : String) : List String :=
  force_split_go chunk_size text.length text

/-- Python `str.split(sep)` for a non-empty separator: left-to-right
scan, non-overlapping matches, empty pieces kept.  Fuel recursion (one
character is consumed per step, so `fuel = len(text)` always suffices);
`sep = ""` raises `ValueError` in Python and is guarded against by the
caller. -/
def py_split_go (sep : List Char) :
    Nat → List Char → List Char → List (List Char)
  | _, current, [] => [current.reverse]
  | 0, current, rest => [current.reverse ++ rest]
  | fuel + 1, current, c :: cs =>
    if sep.isPrefixOf (c :: cs) then
      current.reverse :: py_split_go sep fuel [] ((c :: cs).drop sep.length)
    else
      py_split_go sep fuel (c :: current) cs

/-- Python `text.split(separator)`. -/
def py_split (text separator : String) : List String :=
  (py_split_go separator.data text.length [] text.data).map String.mk

/-- `RecursiveTextSplitter._split_by_separator`:
`text.split(separator)`, re-appending the separator to every piece but the
last. -/
def split_by_separator (text separator : String) : List String :=
  let splits := py_split text separator
  (splits.dropLast.map (fun piece => piece ++ separator)) ++
    splits.drop (splits.length - 1)

/-- The loop body of `_process_splits` together with
`_handle_oversized_split` and `_add_split_to_chunk`: iterate over the
pieces, strip each, skip empty ones, recurse (via `recSplit`, i.e.
`_recursive_split` on the remaining separators) on pieces longer than
`chunk_size`, and otherwise greedily pack pieces into `current`; flushed
chunks are stripped.  The trailing flush of `current` is the `[]` case. -/
def process_splits_go (chunk_size : Nat) (recSplit : String → List String) :
    List String → String → List String
  | [], current => if current ≠ "" then [pyStrip current] else []
  | s :: ss, current =>
    let s' := pyStrip s
    if s' = "" then process_splits_go chunk_size recSplit ss current
    else if chunk_size < s'.length then
      (if current ≠ "" then [pyStrip current] else []) ++ recSplit s' ++
        process_splits_go chunk_size recSplit ss ""
    else if (current ++ s').length ≤ chunk_size then
      process_splits_go chunk_size recSplit ss (current ++ s')
    else
      (if current ≠ "" then [pyStrip current] else []) ++
        process_splits_go chunk_size recSplit ss s'

/-- `RecursiveTextSplitter._recursive_split` (with `_process_splits`
inlined as `process_splits_go` followed by the final
`[chunk for chunk in chunks if chunk]` filter).  Structural recursion on
the separator list. -/
def recursive_split (chunk_size : Nat) : List String → String → List String
  | [], text => force_split chunk_size text
  | separator :: rest, text =>
    if separator = "" then force_split chunk_size text
    else
      (process_splits_go chunk_size (recursive_split chunk_size rest)
        (split_by_separator text separator) "").filter (fun c => c ≠ "")

/-- `RecursiveTextSplitter.split_text`. -/
def split_text (chunk_size : Nat) (separators : List String) (text : String) :
    List String :=
  if text = "" ∨ pyStrip text = "" then []
  else if text.length ≤ chunk_size then [pyStrip text]
  else recursive_split chunk_size separators text

end RecursiveTextSplitter

/-! ## `get_text_embedding.py` — cache-aware batched embeddings

The embedding vectors themselves (lists of floats produced by the HTTP
API or stored in the on-disk cache) are opaque to this code, so they are
modelled by an arbitrary type `E`.  The collaborators are explicit
parameters: `cacheGet` is `cache.get ∘ get_cache_key` (the diskcache
lookup keyed by the md5 of the text), `cache_key` is `get_cache_key`, and
`embedApi` is one `client.embeddings.create` call on a batch.  The
`cache.set` writes happen after every `cache.get` of the call and so
cannot affect its own output; they are not modelled. -/

section TextEmbedding

variable {E : Type}

/-- The loop of `get_cached_embeddings`: partition the enumerated texts
into `(cached_results, uncached (index, text) pairs, uncached cache
keys)`, preserving input order in each part. -/
def cached_loop (cacheGet : String → Option E) (cache_key : String → String) :
    List (Nat × String) → List (Nat × E) × List (Nat × String) × List String
  | [] => ([], [], [])
  | (idx, text) :: rest =>
    let r := cached_loop cacheGet cache_key rest
    match cacheGet (cache_key text) with
    | some e => ((idx, e) :: r.1, r.2.1, r.2.2)
    | none => (r.1, (idx, text) :: r.2.1, cache_key text :: r.2.2)

/-- `get_cached_embeddings`. -/
def get_cached_embeddings (cacheGet : String → Option E)
    (cache_key : String → String) (texts : List String) :
    List (Nat × E) × List (Nat × String) × List String :=
  cached_loop cacheGet cache_key texts.enum

/-- The batching loop of `batch_get_embeddings`
(`for i in range(0, len(texts), batch_size)`); with `batch_size ≥ 1` the
fuel `len(texts)` is never exhausted before the list is. -/
def batch_loop (embedApi : List String → List E) (batch_size : Nat) :
    Nat → List String → List E
  | _, [] => []
  | 0, _ :: _ => []
  | fuel + 1, t :: ts =>
    embedApi ((t :: ts).take batch_size) ++
      batch_loop embedApi batch_size fuel ((t :: ts).drop batch_size)

/-- `batch_get_embeddings` with its default `batch_size = 64`. -/
def batch_get_embeddings (embedApi : List String → List E)
    (texts : List String) : List E :=
  batch_loop embedApi 64 texts.length texts

/-- `get_text_embedding`: look texts up in the cache, batch-compute the
misses, then `sorted(result_embeddings, key=lambda x: x[0])` and project
the vectors.  Python's `zip(uncached_indices, new_embeddings, cache_keys)`
truncates to the shortest list, which the `List.zip` here mirrors
(`cache_keys` has the same length as `uncached_indices`).  The
`if uncached_items` guard only skips appending an empty list and is
dropped. -/
def get_text_embedding (cacheGet : String → Option E)
    (cache_key : String → String) (embedApi : List String → List E)
    (texts : List String) : List E :=
  let r := get_cached_embeddings cacheGet cache_key texts
  let result_embeddings := r.1
  let uncached_items := r.2.1
  let uncached_texts := uncached_items.map Prod.snd
  let uncached_indices := uncached_items.map Prod.fst
  let new_embeddings := batch_get_embeddings embedApi uncached_texts
  let result2 := result_embeddings ++ uncached_indices.zip new_embeddings
  (result2.mergeSort (fun a b => decide (a.1 ≤ b.1))).map Prod.snd

/-- C10 target shape: the canonical, input-ordered answer. -/
def expected_embeddings {E : Type} (cacheGet : String → Option E)
    (cache_key : String → String) (f : String → E) (texts : List String) :
    List E :=
  texts.map (fun t => (cacheGet (cache_key t)).getD (f t))

end TextEmbedding

/-! ## `agentic_rag.py` — the `AgenticRAG` orchestrator

The collaborators are gathered in `Oracle`:

* `search` models `VectorDatabase.search` on the fixed collection — the
  query string and result cap determine the returned passages;
* `chat_initial`, `chat_improved`, `chat_reflect` model the three `chat`
  call sites, as functions of exactly the data that reaches the prompt
  (`chat_reflect` receives `len(search_results)`, since the reflection
  prompt only interpolates the count);
* `loads` models `json.loads` on the fence-stripped reflection text
  followed by dictionary access: `none` covers both a `JSONDecodeError`
  and a payload that is not a JSON object (attribute access on a
  non-`dict` raises, and the `except` clause catches every exception);
  `some fields` is a JSON object.

JSON field values are modelled by `JVal`; JSON arrays appear in the
orchestrator only as the `search_queries` list, whose contract is a list
of strings, so arrays are modelled with string elements (`JVal.arr`).
Search-result dictionaries carry `text`, `score` and `id`; only `text` is
ever read by the orchestrator, so `score`/`id`/metadata are collapsed
into one opaque tag `pid` distinguishing passages with equal text. -/

/-- One retrieved evidence passage (`{"text": ..., "score": ..., "id":
...}`); `pid` stands for every field other than `text`. -/
structure Passage where
  text : String
  pid : Nat
  deriving DecidableEq, Repr

/-- A JSON field value, as far as the reflection payload is concerned. -/
inductive JVal where
  | null : JVal
  | bool : Bool → JVal
  | num : Int → JVal
  | str : String → JVal
  | arr : List String → JVal
  deriving DecidableEq, Repr

/-- The parsed reflection dictionary used by the controller. -/
structure Reflection where
  is_complete : Bool
  missing_info : Option JVal
  search_queries : List String
  deriving DecidableEq, Repr

/-- The fallback reflection built in the `except` branch of
`reflect_on_answer`. -/
def defaultReflection : Reflection :=
  { is_complete := false
    missing_info := some (JVal.str "无法解析反思结果")
    search_queries := [] }

/-- `dict.get(k)` on a parsed JSON object: with duplicate keys,
`json.loads` keeps the last occurrence. -/
def dictGet (fields : List (String × JVal)) (k : String) : Option JVal :=
  (fields.reverse.find? (fun p => p.1 == k)).map Prod.snd

/-- An observable event of one session: a retrieval call
(`db.search(collection, q, limit)`), an answer-generation `chat` call
(`generate_initial_answer` / `generate_improved_answer`), or a reflection
`chat` call. -/
inductive Event where
  | search_call : String → Nat → Event
  | answer_call : Event
  | reflect_call : Event
  deriving DecidableEq, Repr

/-- The query strings issued to the retriever, in order. -/
def searched_queries (trace : List Event) : List String :=
  trace.filterMap (fun e => match e with
    | Event.search_call q _ => some q
    | _ => none)

/-- Count of answer-generation `chat` calls in a trace. -/
def answer_calls (trace : List Event) : Nat :=
  (trace.filter (fun e => e = Event.answer_call)).length

/-- The external collaborators of `AgenticRAG`. -/
structure Oracle where
  search : String → Nat → List Passage
  chat_initial : String → List Passage → String
  chat_improved : String → List Passage → Nat → String
  chat_reflect : String → String → Nat → String
  loads : String → Option (List (String × JVal))

namespace AgenticRAG

/-- `set.add` on the query-history set. -/
def history_add (history : List String) (q : String) : List String :=
  if q ∈ history then history else q :: history

/-- Lines 147–156 of `reflect_on_answer`: strip a leading ```` ```json ````
or ```` ``` ```` fence and a trailing ```` ``` ```` fence around the raw
response (which was already `.strip()`-ed at line 145). -/
def strip_code_fences (s : String) : String :=
  let t := pyStrip s
  let t := if t.startsWith "```json" then t.drop 7
           else if t.startsWith "```" then t.drop 3
           else t
  let t := if t.endsWith "```" then t.dropRight 3 else t
  pyStrip t

/-- Lines 159–177: validate the decoded payload.  `none` (decode failure
or non-object payload) and a missing/non-boolean `is_complete` (the
`ValueError`, caught by the same `except`) both produce
`defaultReflection`; a non-list `search_queries` is replaced by `[]`
while the rest of the payload is kept. -/
def parse_reflection (payload : Option (List (String × JVal))) : Reflection :=
  match payload with
  | none => defaultReflection
  | some fields =>
    match dictGet fields "is_complete" with
    | some (JVal.bool b) =>
      { is_complete := b
        missing_info := dictGet fields "missing_info"
        search_queries :=
          match dictGet fields "search_queries" with
          | some (JVal.arr xs) => xs
          | _ => [] }
    | _ => defaultReflection

/-- `AgenticRAG.reflect_on_answer`. -/
def reflect_on_answer (o : Oracle) (query answer : String)
    (search_results : List Passage) : Reflection :=
  parse_reflection (o.loads (strip_code_fences
    (o.chat_reflect query answer search_results.length)))

/-- `AgenticRAG.initial_search`: one retrieval for the original question,
then `query_history.add(query)`.  Returns the results, the updated
history, and the emitted events. -/
def initial_search (o : Oracle) (query : String) (limit : Nat)
    (query_history : List String) :
    List Passage × List String × List Event :=
  (o.search query limit, history_add query_history query,
    [Event.search_call query limit])

/-- `AgenticRAG.generate_initial_answer`. -/
def generate_initial_answer (o : Oracle) (query : String)
    (search_results : List Passage) : String :=
  o.chat_initial query search_results

/-- `AgenticRAG.generate_improved_answer`. -/
def generate_improved_answer (o : Oracle) (query : String)
    (all_search_results : List Passage) (iteration : Nat) : String :=
  o.chat_improved query all_search_results iteration

/-- Lines 208–214 of `refined_search`: keep each proposed query that is
truthy (non-empty) and not yet in the query history, adding it to the
history at once so that a later duplicate in the same round is also
skipped.  Returns the accepted queries in order and the updated
history. -/
def add_new_queries (history : List String) :
    List String → List String × List String
  | [] => ([], history)
  | q :: qs =>
    if q ≠ "" ∧ q ∉ history then
      let r := add_new_queries (q :: history) qs
      (q :: r.1, r.2)
    else add_new_queries history qs

/-- Lines 226–231 of `refined_search`: keep each result whose `text` is
not in `previous_texts`, adding the kept text to `previous_texts` at
once.  Returns the kept results in order and the grown text set. -/
def dedup_results (previous_texts : List String) :
    List Passage → List Passage × List String
  | [] => ([], previous_texts)
  | r :: rs =>
    if r.text ∈ previous_texts then dedup_results previous_texts rs
    else
      let u := dedup_results (r.text :: previous_texts) rs
      (r :: u.1, u.2)

/-- Lines 221–233 of `refined_search`: issue each accepted query with
`limit=3`, deduplicate its results against everything accumulated so far
(including earlier queries of the same round), and concatenate the
deltas.  Returns the merged new results, the final text set, and the
search events. -/
def search_merge_loop (o : Oracle) (previous_texts : List String) :
    List String → List Passage × List String × List Event
  | [] => ([], previous_texts, [])
  | q :: qs =>
    let new_results := o.search q 3
    let u := dedup_results previous_texts new_results
    let rest := search_merge_loop o u.2 qs
    (u.1 ++ rest.1, rest.2.1, Event.search_call q 3 :: rest.2.2)

/-- `AgenticRAG.refined_search`.  Returns the new results, the updated
query history, and the emitted events. -/
def refined_search (o : Oracle) (reflection : Reflection)
    (previous_results : List Passage) (query_history : List String) :
    List Passage × List String × List Event :=
  let search_queries := reflection.search_queries
  let previous_texts := previous_results.map Passage.text
  if search_queries.isEmpty then ([], query_history, [])
  else
    let nq := add_new_queries query_history search_queries
    if nq.1.isEmpty then ([], nq.2, [])
    else
      let merged := search_merge_loop o previous_texts nq.1
      (merged.1, nq.2, merged.2.2)

/-- One entry of `iteration_history`. -/
structure IterationRecord where
  iteration : Nat
  answer : String
  reflection : Reflection
  search_results_count : Nat
  deriving DecidableEq, Repr

/-- The mutable state of one `query` call. -/
structure LoopState where
  current_answer : String
  all_search_results : List Passage
  iteration_history : List IterationRecord
  query_history : List String
  trace : List Event
  deriving DecidableEq, Repr

/-- Lines 289–320: the `for iteration in range(1, max_iterations + 1)`
loop.  `remaining` is the number of loop indices left, `iteration` the
Python loop variable.  Each round reflects, appends an `IterationRecord`,
breaks on a complete verdict, refines, breaks on an empty delta, and
otherwise merges and regenerates. -/
def run_iterations (o : Oracle) (user_query : String) :
    Nat → Nat → LoopState → LoopState
  | 0, _, st => st
  | remaining + 1, iteration, st =>
    let reflection :=
      reflect_on_answer o user_query st.current_answer st.all_search_results
    let st1 : LoopState :=
      { st with
        iteration_history := st.iteration_history ++
          [{ iteration := iteration
             answer := st.current_answer
             reflection := reflection
             search_results_count := st.all_search_results.length }]
        trace := st.trace ++ [Event.reflect_call] }
    if reflection.is_complete then st1
    else
      let rs := refined_search o reflection st1.all_search_results
        st1.query_history
      let st2 : LoopState :=
        { st1 with query_history := rs.2.1, trace := st1.trace ++ rs.2.2 }
      if rs.1.isEmpty then st2
      else
        let all' := st2.all_search_results ++ rs.1
        let answer' := generate_improved_answer o user_query all' iteration
        run_iterations o user_query remaining (iteration + 1)
          { st2 with
            all_search_results := all'
            current_answer := answer'
            trace := st2.trace ++ [Event.answer_call] }

/-- The returned `final_result` dictionary. -/
structure FinalResult where
  query : String
  final_answer : String
  total_search_results : Nat
  iterations : Nat
  iteration_history : List IterationRecord
  all_search_results : List Passage
  deriving DecidableEq, Repr

/-- `AgenticRAG.query`: clear the query history, run the initial search
and answer, iterate at most `max_iterations` times (`range(1, n + 1)` is
empty for `n ≤ 0`, i.e. it has `n.toNat` indices), and assemble the final
result.  Also returns the full event trace of the session. -/
def query (o : Oracle) (max_iterations : Int) (user_query : String) :
    FinalResult × List Event :=
  let init := initial_search o user_query 5 []
  let search_results := init.1
  let current_answer := generate_initial_answer o user_query search_results
  let st0 : LoopState :=
    { current_answer := current_answer
      all_search_results := search_results
      iteration_history := []
      query_history := init.2.1
      trace := init.2.2 ++ [Event.answer_call] }
  let stf := run_iterations o user_query max_iterations.toNat 1 st0
  ({ query := user_query
     final_answer := stf.current_answer
     total_search_results := stf.all_search_results.length
     iterations := stf.iteration_history.length
     iteration_history := stf.iteration_history
     all_search_results := stf.all_search_results }, stf.trace)

/-- The state after the reflect-and-record prefix of one loop round. -/
def step_record (o : Oracle) (uq : String) (it : Nat) (st : LoopState) :
    LoopState :=
  { st with
    iteration_history := st.iteration_history ++
      [{ iteration := it
         answer := st.current_answer
         reflection := reflect_on_answer o uq st.current_answer st.all_search_results
         search_results_count := st.all_search_results.length }]
    trace := st.trace ++ [Event.reflect_call] }

/-- Session invariant for query deduplication: the queries searched so
far never repeat, and each of them has been registered in the query
history. -/
def trace_inv (st : LoopState) : Prop :=
  (searched_queries st.trace).Nodup ∧
    ∀ q ∈ searched_queries st.trace, q ∈ st.query_history

/-- A reflection payload on which the `try` block of `reflect_on_answer`
fails: either `json.loads` raised / the payload is not an object
(`none`), or `is_complete` is missing or not a boolean (the
`ValueError`). -/
def bad_payload : Option (List (String × JVal)) → Prop
  | none => True
  | some fields => ∀ b, dictGet fields "is_complete" ≠ some (JVal.bool b)

/-- The session state right after the INITIAL step of `query` (initial
retrieval, history registration, initial answer). -/
def initial_state (o : Oracle) (uq : String) : LoopState :=
  { current_answer := generate_initial_answer o uq (o.search uq 5)
    all_search_results := o.search uq 5
    iteration_history := []
    query_history := history_add [] uq
    trace := [Event.search_call uq 5, Event.answer_call] }

end AgenticRAG

/-! ## Concrete collaborators used by counterexamples and witnesses -/

open AgenticRAG in
/-- A retriever that finds nothing and a generation service whose output
never decodes as JSON. -/
def oracle0 : Oracle :=
  { search := fun _ _ => []
    chat_initial := fun _ _ => "ans0"
    chat_improved := fun _ _ _ => "ansN"
    chat_reflect := fun _ _ _ => "not json"
    loads := fun _ => none }

open AgenticRAG in
/-- A retriever whose response contains the same passage text twice. -/
def oracle_dup : Oracle :=
  { oracle0 with search := fun _ _ => [⟨"a", 0⟩, ⟨"a", 1⟩] }

open AgenticRAG in
/-- A reflection payload with a boolean `is_complete` but a non-list
`search_queries` field. -/
def oracle_field_bad : Oracle :=
  { oracle0 with loads := fun _ => some (
      [("is_complete", JVal.bool true), ("search_queries", JVal.num 5)]) }

open AgenticRAG in
/-- A reflection service that always reports the answer complete. -/
def oracle_complete : Oracle :=
  { oracle0 with loads := fun _ => some [("is_complete", JVal.bool true)] }

open AgenticRAG in
/-- A verdict proposing four fresh refinement queries. -/
def many_queries_reflection : Reflection :=
  { is_complete := false
    missing_info := none
    search_queries := ["a", "b", "c", "d"] }

/-- An embedding cache holding one entry. -/
def cache_ex : String → Option Nat :=
  fun t => if t = "hit" then some 100 else none

/-- An embedding service computing the length of each text. -/
def api_ex : List String → List Nat :=
  fun ts => ts.map String.length

/-! ## Proofs -/

theorem pyStrip_length_le (s : String) : (pyStrip s).length ≤ s.length := by
  have h1 := (List.dropWhile_sublist (l := s.data) Char.isWhitespace).length_le
  have h2 := (List.dropWhile_sublist
    (l := (s.data.dropWhile Char.isWhitespace).reverse) Char.isWhitespace).length_le
  simp only [pyStrip, String.length, List.length_reverse] at *
  omega

theorem pyTake_length_le (s : String) (n : Nat) : (pyTake s n).length ≤ n := by
  simp only [pyTake, String.length, List.length_take]
  omega

namespace RecursiveTextSplitter

theorem force_split_go_length_le (chunk_size fuel : Nat) (t : String) :
    ∀ c ∈ force_split_go chunk_size fuel t, c.length ≤ chunk_size := by
  induction fuel generalizing t with
  | zero => simp [force_split_go]
  | succ fuel ih =>
    intro c hc
    simp only [force_split_go] at hc
    by_cases hemp : t.data = []
    · simp [hemp] at hc
    · simp only [hemp, if_false, List.mem_append] at hc
      rcases hc with hc | hc
      · rcases (by split at hc <;> simp_all :
          c = pyStrip (pyTake t chunk_size)) with rfl
        exact le_trans (pyStrip_length_le _) (pyTake_length_le _ _)
      · exact ih _ c hc

theorem force_split_length_le (chunk_size : Nat) (text : String) :
    ∀ c ∈ force_split chunk_size text, c.length ≤ chunk_size :=
  force_split_go_length_le chunk_size text.length text

theorem process_splits_go_length_le (chunk_size : Nat)
    (recSplit : String → List String)
    (hrec : ∀ t c, c ∈ recSplit t → c.length ≤ chunk_size) :
    ∀ (splits : List String) (current : String),
      current.length ≤ chunk_size →
      ∀ c ∈ process_splits_go chunk_size recSplit splits current,
        c.length ≤ chunk_size := by
  intro splits
  induction splits with
  | nil =>
    intro current hcur c hc
    simp only [process_splits_go] at hc
    split at hc <;> simp_all
    exact le_trans (pyStrip_length_le _) hcur
  | cons s ss ih =>
    intro current hcur c hc
    simp only [process_splits_go] at hc
    by_cases h1 : pyStrip s = ""
    · rw [if_pos h1] at hc
      exact ih current hcur c hc
    · rw [if_neg h1] at hc
      by_cases h2 : chunk_size < (pyStrip s).length
      · rw [if_pos h2] at hc
        simp only [List.mem_append] at hc
        rcases hc with (hc | hc) | hc
        · rcases (by split at hc <;> simp_all : c = pyStrip current) with rfl
          exact le_trans (pyStrip_length_le _) hcur
        · exact hrec _ c hc
        · exact ih "" (by simp) c hc
      · rw [if_neg h2] at hc
        by_cases h3 : (current ++ pyStrip s).length ≤ chunk_size
        · rw [if_pos h3] at hc
          exact ih _ h3 c hc
        · rw [if_neg h3] at hc
          simp only [List.mem_append] at hc
          rcases hc with hc | hc
          · rcases (by split at hc <;> simp_all : c = pyStrip current) with rfl
            exact le_trans (pyStrip_length_le _) hcur
          · exact ih (pyStrip s) (by omega) c hc

theorem recursive_split_length_le (chunk_size : Nat) (separators : List String)
    (text : String) :
    ∀ c ∈ recursive_split chunk_size separators text, c.length ≤ chunk_size := by
  induction separators generalizing text with
  | nil => exact force_split_length_le chunk_size text
  | cons separator rest ih =>
    intro c hc
    simp only [recursive_split] at hc
    by_cases hsep : separator = ""
    · rw [if_pos hsep] at hc
      exact force_split_length_le chunk_size text c hc
    · rw [if_neg hsep] at hc
      have := List.mem_of_mem_filter hc
      exact process_splits_go_length_le chunk_size _
        (fun t c hct => ih t c hct) _ "" (by simp) c this

end RecursiveTextSplitter

theorem batch_loop_eq_map {E : Type} (embedApi : List String → List E)
    (f : String → E) (hapi : ∀ ts, embedApi ts = ts.map f)
    (batch_size : Nat) (hbs : 1 ≤ batch_size) :
    ∀ (fuel : Nat) (ts : List String), ts.length ≤ fuel →
      batch_loop embedApi batch_size fuel ts = ts.map f := by
  intro fuel
  induction fuel with
  | zero =>
    intro ts hlen
    cases ts with
    | nil => rfl
    | cons t ts => simp at hlen
  | succ fuel ih =>
    intro ts hlen
    cases ts with
    | nil => rfl
    | cons t ts =>
      have hdrop : ((t :: ts).drop batch_size).length ≤ fuel := by
        simp only [List.length_drop, List.length_cons] at *
        omega
      calc batch_loop embedApi batch_size (fuel + 1) (t :: ts)
          = embedApi ((t :: ts).take batch_size) ++
              batch_loop embedApi batch_size fuel ((t :: ts).drop batch_size) := rfl
        _ = ((t :: ts).take batch_size).map f ++ ((t :: ts).drop batch_size).map f := by
            rw [hapi, ih _ hdrop]
        _ = (t :: ts).map f := by rw [← List.map_append, List.take_append_drop]

theorem cached_loop_perm {E : Type} (cacheGet : String → Option E)
    (cache_key : String → String) (f : String → E) (items : List (Nat × String)) :
    ((cached_loop cacheGet cache_key items).1 ++
        (cached_loop cacheGet cache_key items).2.1.map
          (fun p => (p.1, f p.2))).Perm
      (items.map (fun p => (p.1, (cacheGet (cache_key p.2)).getD (f p.2)))) := by
  induction items with
  | nil => simp [cached_loop]
  | cons it rest ih =>
    obtain ⟨idx, text⟩ := it
    simp only [cached_loop, List.map_cons]
    cases hc : cacheGet (cache_key text) with
    | some e =>
      simp only [hc, Option.getD_some, List.cons_append]
      exact (ih.cons (idx, e)).trans (List.Perm.refl _)
    | none =>
      simp only [hc, Option.getD_none, List.map_cons]
      exact List.perm_middle.trans (ih.cons (idx, f text))

theorem sort_pairs_eq {E : Type} (l canonical : List (Nat × E))
    (hperm : l.Perm canonical)
    (hsort : canonical.Pairwise (fun a b => a.1 < b.1)) :
    l.mergeSort (fun a b => decide (a.1 ≤ b.1)) = canonical := by
  have hperm1 : (l.mergeSort (fun a b => decide (a.1 ≤ b.1))).Perm l :=
    List.mergeSort_perm l _
  have hpermC := hperm1.trans hperm
  have hle : (l.mergeSort (fun a b => decide (a.1 ≤ b.1))).Pairwise
      (fun a b => (fun (a b : Nat × E) => decide (a.1 ≤ b.1)) a b = true) :=
    List.sorted_mergeSort
      (by intro a b c h1 h2; simp only [decide_eq_true_eq] at *; omega)
      (by intro a b; simp only [Bool.or_eq_true, decide_eq_true_eq]; omega) l
  have hneC : canonical.Pairwise (fun a b => a.1 ≠ b.1) :=
    hsort.imp (fun h => Nat.ne_of_lt h)
  have hne : (l.mergeSort (fun a b => decide (a.1 ≤ b.1))).Pairwise
      (fun a b => a.1 ≠ b.1) :=
    (List.Perm.pairwise_iff (fun h => Ne.symm h) hpermC).mpr hneC
  have hlt : (l.mergeSort (fun a b => decide (a.1 ≤ b.1))).Pairwise
      (fun a b => a.1 < b.1) :=
    (hle.and hne).imp (fun h => lt_of_le_of_ne (by simpa using h.1) h.2)
  haveI : IsAntisymm (Nat × E) (fun a b => a.1 < b.1) :=
    ⟨fun a b h1 h2 => absurd h2 (Nat.lt_asymm h1)⟩
  exact List.eq_of_perm_of_sorted hpermC hlt hsort

/-- C10 (main lemma): if the embedding service returns one vector per
input text, computed pointwise by some `f`, then `get_text_embedding`
returns, in input order, the cached vector when present and the freshly
computed one otherwise. -/
theorem get_text_embedding_eq_expected {E : Type} (cacheGet : String → Option E)
    (cache_key : String → String) (embedApi : List String → List E)
    (f : String → E) (hapi : ∀ ts, embedApi ts = ts.map f) (texts : List String) :
    get_text_embedding cacheGet cache_key embedApi texts =
      expected_embeddings cacheGet cache_key f texts := by
  have hsortC : (texts.enum.map
      (fun p => (p.1, (cacheGet (cache_key p.2)).getD (f p.2)))).Pairwise
      (fun a b : Nat × E => a.1 < b.1) := by
    rw [List.pairwise_map]
    have h1 : ((List.enumFrom 0 texts).map Prod.fst).Pairwise (· < ·) := by
      rw [List.enumFrom_map_fst]
      exact List.pairwise_lt_range' 0 texts.length
    rw [List.pairwise_map] at h1
    exact h1
  have key := sort_pairs_eq
    ((cached_loop cacheGet cache_key texts.enum).1 ++
      (cached_loop cacheGet cache_key texts.enum).2.1.map (fun p => (p.1, f p.2)))
    (texts.enum.map (fun p => (p.1, (cacheGet (cache_key p.2)).getD (f p.2))))
    (cached_loop_perm cacheGet cache_key f texts.enum) hsortC
  have hbatch : batch_get_embeddings embedApi
      ((cached_loop cacheGet cache_key texts.enum).2.1.map Prod.snd) =
      ((cached_loop cacheGet cache_key texts.enum).2.1.map Prod.snd).map f :=
    batch_loop_eq_map embedApi f hapi 64 (by norm_num) _ _ le_rfl
  have hfresh : ((cached_loop cacheGet cache_key texts.enum).2.1.map Prod.fst).zip
      (((cached_loop cacheGet cache_key texts.enum).2.1.map Prod.snd).map f) =
      (cached_loop cacheGet cache_key texts.enum).2.1.map (fun p => (p.1, f p.2)) := by
    rw [List.map_map]
    exact List.zip_map' Prod.fst (f ∘ Prod.snd) _
  simp only [get_text_embedding, get_cached_embeddings, expected_embeddings]
  rw [hbatch, hfresh, key, List.map_map]
  rw [show (Prod.snd ∘ fun p : Nat × String =>
      (p.1, (cacheGet (cache_key p.2)).getD (f p.2))) =
      ((fun t => (cacheGet (cache_key t)).getD (f t)) ∘ Prod.snd) from rfl]
  rw [← List.map_map, List.enum_map_snd]

namespace AgenticRAG

theorem add_new_queries_mem_fst (h qs : List String) (q : String) :
    q ∈ (add_new_queries h qs).1 ↔ q ∈ qs ∧ q ≠ "" ∧ q ∉ h := by
  induction qs generalizing h with
  | nil => simp [add_new_queries]
  | cons q0 rest ih =>
    simp only [add_new_queries]
    by_cases hq0 : q0 ≠ "" ∧ q0 ∉ h
    · rw [if_pos hq0]
      simp only [List.mem_cons, ih]
      by_cases hqq : q = q0
      · subst hqq
        tauto
      · tauto
    · rw [if_neg hq0]
      rw [ih]
      simp only [List.mem_cons]
      by_cases hqq : q = q0
      · subst hqq
        tauto
      · tauto

theorem add_new_queries_mem_snd (h qs : List String) (q : String) :
    q ∈ (add_new_queries h qs).2 ↔ q ∈ h ∨ q ∈ (add_new_queries h qs).1 := by
  induction qs generalizing h with
  | nil => simp [add_new_queries]
  | cons q0 rest ih =>
    simp only [add_new_queries]
    by_cases hq0 : q0 ≠ "" ∧ q0 ∉ h
    · rw [if_pos hq0]
      rw [ih]
      simp only [List.mem_cons, add_new_queries_mem_fst]
      tauto
    · rw [if_neg hq0]
      rw [ih]

theorem add_new_queries_nodup (h qs : List String) :
    (add_new_queries h qs).1.Nodup := by
  induction qs generalizing h with
  | nil => simp [add_new_queries]
  | cons q0 rest ih =>
    simp only [add_new_queries]
    by_cases hq0 : q0 ≠ "" ∧ q0 ∉ h
    · rw [if_pos hq0]
      refine List.nodup_cons.mpr ⟨?_, ih _⟩
      intro hmem
      rw [add_new_queries_mem_fst] at hmem
      exact hmem.2.2 (List.mem_cons_self _ _)
    · rw [if_neg hq0]
      exact ih h

theorem dedup_results_spec (ts : List String) (rs : List Passage) :
    ((dedup_results ts rs).1.map Passage.text).Nodup ∧
      (∀ t ∈ (dedup_results ts rs).1.map Passage.text, t ∉ ts) ∧
      (∀ t, t ∈ (dedup_results ts rs).2 ↔
        t ∈ ts ∨ t ∈ (dedup_results ts rs).1.map Passage.text) := by
  induction rs generalizing ts with
  | nil => simp [dedup_results]
  | cons r rest ih =>
    simp only [dedup_results]
    by_cases hr : r.text ∈ ts
    · rw [if_pos hr]
      obtain ⟨ihn, ihp, ihm⟩ := ih ts
      exact ⟨ihn, ihp, ihm⟩
    · rw [if_neg hr]
      obtain ⟨ihn, ihp, ihm⟩ := ih (r.text :: ts)
      refine ⟨?_, ?_, ?_⟩
      · simp only [List.map_cons]
        refine List.nodup_cons.mpr ⟨?_, ihn⟩
        intro hmem
        exact (ihp _ hmem) (List.mem_cons_self _ _)
      · intro t ht
        simp only [List.map_cons, List.mem_cons] at ht
        rcases ht with rfl | ht
        · exact hr
        · intro htts
          exact (ihp t ht) (List.mem_cons_of_mem _ htts)
      · intro t
        rw [ihm t]
        simp only [List.map_cons, List.mem_cons]
        tauto

theorem search_merge_loop_spec (o : Oracle) (qs : List String) :
    ∀ ts : List String,
      ((search_merge_loop o ts qs).1.map Passage.text).Nodup ∧
        ∀ t ∈ (search_merge_loop o ts qs).1.map Passage.text, t ∉ ts := by
  induction qs with
  | nil =>
    intro ts
    simp [search_merge_loop]
  | cons q rest ih =>
    intro ts
    simp only [search_merge_loop]
    obtain ⟨dn, dp, dm⟩ := dedup_results_spec ts (o.search q 3)
    obtain ⟨rn, rp⟩ := ih (dedup_results ts (o.search q 3)).2
    constructor
    · rw [List.map_append]
      refine List.Nodup.append dn rn ?_
      intro t ht1 ht2
      exact (rp t ht2) ((dm t).mpr (Or.inr ht1))
    · intro t ht
      rw [List.map_append, List.mem_append] at ht
      rcases ht with ht | ht
      · exact dp t ht
      · intro htts
        exact (rp t ht) ((dm t).mpr (Or.inl htts))

theorem search_merge_loop_searched (o : Oracle) (qs : List String) :
    ∀ ts, searched_queries (search_merge_loop o ts qs).2.2 = qs := by
  induction qs with
  | nil =>
    intro ts
    simp [search_merge_loop, searched_queries]
  | cons q rest ih =>
    intro ts
    simp only [search_merge_loop, searched_queries, List.filterMap_cons]
    simpa [searched_queries] using ih (dedup_results ts (o.search q 3)).2

theorem refined_search_snd_history (o : Oracle) (refl : Reflection)
    (prev : List Passage) (h : List String) :
    (refined_search o refl prev h).2.1 =
      (add_new_queries h refl.search_queries).2 := by
  unfold refined_search
  by_cases hq : refl.search_queries = []
  · simp [hq, add_new_queries]
  · rw [if_neg (by simpa [List.isEmpty_iff] using hq)]
    by_cases hn : (add_new_queries h refl.search_queries).1 = []
    · rw [if_pos (by simpa [List.isEmpty_iff] using hn)]
    · rw [if_neg (by simpa [List.isEmpty_iff] using hn)]

theorem refined_search_searched (o : Oracle) (refl : Reflection)
    (prev : List Passage) (h : List String) :
    searched_queries (refined_search o refl prev h).2.2 =
      (add_new_queries h refl.search_queries).1 := by
  unfold refined_search
  by_cases hq : refl.search_queries = []
  · simp [hq, add_new_queries, searched_queries]
  · rw [if_neg (by simpa [List.isEmpty_iff] using hq)]
    by_cases hn : (add_new_queries h refl.search_queries).1 = []
    · rw [if_pos (by simpa [List.isEmpty_iff] using hn)]
      simp [hn, searched_queries]
    · rw [if_neg (by simpa [List.isEmpty_iff] using hn)]
      exact search_merge_loop_searched o _ _

theorem refined_search_texts_spec (o : Oracle) (refl : Reflection)
    (prev : List Passage) (h : List String) :
    ((refined_search o refl prev h).1.map Passage.text).Nodup ∧
      ∀ t ∈ (refined_search o refl prev h).1.map Passage.text,
        t ∉ prev.map Passage.text := by
  unfold refined_search
  by_cases hq : refl.search_queries = []
  · simp [hq]
  · rw [if_neg (by simpa [List.isEmpty_iff] using hq)]
    by_cases hn : (add_new_queries h refl.search_queries).1 = []
    · rw [if_pos (by simpa [List.isEmpty_iff] using hn)]
      simp
    · rw [if_neg (by simpa [List.isEmpty_iff] using hn)]
      exact search_merge_loop_spec o _ (prev.map Passage.text)

theorem run_iterations_succ_of_complete (o : Oracle) (uq : String)
    (rem it : Nat) (st : LoopState)
    (hc : (reflect_on_answer o uq st.current_answer
      st.all_search_results).is_complete = true) :
    run_iterations o uq (rem + 1) it st = step_record o uq it st := by
  simp [run_iterations, step_record, hc]

theorem run_iterations_succ_of_empty (o : Oracle) (uq : String)
    (rem it : Nat) (st : LoopState)
    (hc : (reflect_on_answer o uq st.current_answer
      st.all_search_results).is_complete = false)
    (he : (refined_search o
      (reflect_on_answer o uq st.current_answer st.all_search_results)
      st.all_search_results st.query_history).1.isEmpty = true) :
    run_iterations o uq (rem + 1) it st =
      { step_record o uq it st with
        query_history := (refined_search o
          (reflect_on_answer o uq st.current_answer st.all_search_results)
          st.all_search_results st.query_history).2.1
        trace := st.trace ++ [Event.reflect_call] ++ (refined_search o
          (reflect_on_answer o uq st.current_answer st.all_search_results)
          st.all_search_results st.query_history).2.2 } := by
  simp [run_iterations, step_record, hc, he]

theorem run_iterations_succ_of_continue (o : Oracle) (uq : String)
    (rem it : Nat) (st : LoopState)
    (hc : (reflect_on_answer o uq st.current_answer
      st.all_search_results).is_complete = false)
    (he : (refined_search o
      (reflect_on_answer o uq st.current_answer st.all_search_results)
      st.all_search_results st.query_history).1.isEmpty = false) :
    run_iterations o uq (rem + 1) it st =
      run_iterations o uq rem (it + 1)
        { current_answer := generate_improved_answer o uq
            (st.all_search_results ++ (refined_search o
              (reflect_on_answer o uq st.current_answer st.all_search_results)
              st.all_search_results st.query_history).1) it
          all_search_results := st.all_search_results ++ (refined_search o
            (reflect_on_answer o uq st.current_answer st.all_search_results)
            st.all_search_results st.query_history).1
          iteration_history := (step_record o uq it st).iteration_history
          query_history := (refined_search o
            (reflect_on_answer o uq st.current_answer st.all_search_results)
            st.all_search_results st.query_history).2.1
          trace := st.trace ++ [Event.reflect_call] ++ (refined_search o
            (reflect_on_answer o uq st.current_answer st.all_search_results)
            st.all_search_results st.query_history).2.2 ++
            [Event.answer_call] } := by
  simp [run_iterations, step_record, hc, he]

theorem searched_queries_append (a b : List Event) :
    searched_queries (a ++ b) = searched_queries a ++ searched_queries b :=
  List.filterMap_append a b _

theorem searched_queries_reflect : searched_queries [Event.reflect_call] = [] :=
  rfl

theorem searched_queries_answer : searched_queries [Event.answer_call] = [] :=
  rfl

theorem trace_inv_round (o : Oracle) (uq : String) (st : LoopState)
    (hinv : trace_inv st) :
    ((searched_queries (st.trace ++ [Event.reflect_call] ++ (refined_search o
        (reflect_on_answer o uq st.current_answer st.all_search_results)
        st.all_search_results st.query_history).2.2)).Nodup ∧
      ∀ q ∈ searched_queries (st.trace ++ [Event.reflect_call] ++
        (refined_search o
          (reflect_on_answer o uq st.current_answer st.all_search_results)
          st.all_search_results st.query_history).2.2),
        q ∈ (refined_search o
          (reflect_on_answer o uq st.current_answer st.all_search_results)
          st.all_search_results st.query_history).2.1) := by
  obtain ⟨hnd, hsub⟩ := hinv
  rw [searched_queries_append, searched_queries_append,
    searched_queries_reflect, List.append_nil,
    refined_search_searched, refined_search_snd_history]
  constructor
  · refine List.Nodup.append hnd (add_new_queries_nodup _ _) ?_
    intro q hq1 hq2
    rw [add_new_queries_mem_fst] at hq2
    exact hq2.2.2 (hsub q hq1)
  · intro q hq
    rw [add_new_queries_mem_snd]
    rw [List.mem_append] at hq
    rcases hq with hq | hq
    · exact Or.inl (hsub q hq)
    · exact Or.inr hq

theorem run_iterations_trace_inv (o : Oracle) (uq : String) :
    ∀ (rem it : Nat) (st : LoopState), trace_inv st →
      trace_inv (run_iterations o uq rem it st) := by
  intro rem
  induction rem with
  | zero =>
    intro it st hinv
    simpa [run_iterations] using hinv
  | succ rem ih =>
    intro it st hinv
    by_cases hc : (reflect_on_answer o uq st.current_answer
        st.all_search_results).is_complete = true
    · rw [run_iterations_succ_of_complete o uq rem it st hc]
      obtain ⟨hnd, hsub⟩ := hinv
      refine ⟨?_, ?_⟩
      · simp only [step_record, searched_queries_append,
          searched_queries_reflect, List.append_nil]
        exact hnd
      · intro q hq
        simp only [step_record, searched_queries_append,
          searched_queries_reflect, List.append_nil] at hq
        exact hsub q hq
    · rw [Bool.not_eq_true] at hc
      by_cases he : (refined_search o
          (reflect_on_answer o uq st.current_answer st.all_search_results)
          st.all_search_results st.query_history).1.isEmpty = true
      · rw [run_iterations_succ_of_empty o uq rem it st hc he]
        obtain ⟨h1, h2⟩ := trace_inv_round o uq st hinv
        refine ⟨?_, ?_⟩
        · simpa [step_record] using h1
        · intro q hq
          simp only [step_record] at hq ⊢
          exact h2 q hq
      · rw [Bool.not_eq_true] at he
        rw [run_iterations_succ_of_continue o uq rem it st hc he]
        apply ih
        obtain ⟨h1, h2⟩ := trace_inv_round o uq st hinv
        simp only [searched_queries_append, searched_queries_reflect,
          searched_queries_answer, List.append_nil] at h1 h2
        refine ⟨?_, ?_⟩
        · simp only [searched_queries_append, searched_queries_reflect,
            searched_queries_answer, List.append_nil]
          exact h1
        · intro q hq
          simp only [searched_queries_append, searched_queries_reflect,
            searched_queries_answer, List.append_nil] at hq
          exact h2 q hq

theorem run_iterations_length_le (o : Oracle) (uq : String) :
    ∀ (rem it : Nat) (st : LoopState),
      (run_iterations o uq rem it st).iteration_history.length ≤
        st.iteration_history.length + rem := by
  intro rem
  induction rem with
  | zero =>
    intro it st
    simp [run_iterations]
  | succ rem ih =>
    intro it st
    by_cases hc : (reflect_on_answer o uq st.current_answer
        st.all_search_results).is_complete = true
    · rw [run_iterations_succ_of_complete o uq rem it st hc]
      simp [step_record]
    · rw [Bool.not_eq_true] at hc
      by_cases he : (refined_search o
          (reflect_on_answer o uq st.current_answer st.all_search_results)
          st.all_search_results st.query_history).1.isEmpty = true
      · rw [run_iterations_succ_of_empty o uq rem it st hc he]
        simp [step_record]
      · rw [Bool.not_eq_true] at he
        rw [run_iterations_succ_of_continue o uq rem it st hc he]
        have := ih (it + 1)
          { current_answer := generate_improved_answer o uq
              (st.all_search_results ++ (refined_search o
                (reflect_on_answer o uq st.current_answer st.all_search_results)
                st.all_search_results st.query_history).1) it
            all_search_results := st.all_search_results ++ (refined_search o
              (reflect_on_answer o uq st.current_answer st.all_search_results)
              st.all_search_results st.query_history).1
            iteration_history := (step_record o uq it st).iteration_history
            query_history := (refined_search o
              (reflect_on_answer o uq st.current_answer st.all_search_results)
              st.all_search_results st.query_history).2.1
            trace := st.trace ++ [Event.reflect_call] ++ (refined_search o
              (reflect_on_answer o uq st.current_answer st.all_search_results)
              st.all_search_results st.query_history).2.2 ++
              [Event.answer_call] }
        simp only [step_record, List.length_append, List.length_cons,
          List.length_nil] at this ⊢
        omega

theorem run_iterations_evidence_nodup (o : Oracle) (uq : String) :
    ∀ (rem it : Nat) (st : LoopState),
      (st.all_search_results.map Passage.text).Nodup →
      ((run_iterations o uq rem it st).all_search_results.map
        Passage.text).Nodup := by
  intro rem
  induction rem with
  | zero =>
    intro it st h
    simpa [run_iterations] using h
  | succ rem ih =>
    intro it st h
    by_cases hc : (reflect_on_answer o uq st.current_answer
        st.all_search_results).is_complete = true
    · rw [run_iterations_succ_of_complete o uq rem it st hc]
      simpa [step_record] using h
    · rw [Bool.not_eq_true] at hc
      by_cases he : (refined_search o
          (reflect_on_answer o uq st.current_answer st.all_search_results)
          st.all_search_results st.query_history).1.isEmpty = true
      · rw [run_iterations_succ_of_empty o uq rem it st hc he]
        simpa [step_record] using h
      · rw [Bool.not_eq_true] at he
        rw [run_iterations_succ_of_continue o uq rem it st hc he]
        apply ih
        obtain ⟨hnodup, hfresh⟩ := refined_search_texts_spec o
          (reflect_on_answer o uq st.current_answer st.all_search_results)
          st.all_search_results st.query_history
        simp only [List.map_append]
        exact List.Nodup.append h hnodup (fun t ht1 ht2 => hfresh t ht2 ht1)

theorem parse_reflection_of_bad (payload : Option (List (String × JVal)))
    (h : bad_payload payload) :
    parse_reflection payload = defaultReflection := by
  match payload with
  | none => rfl
  | some fields =>
    simp only [parse_reflection]
    cases hv : dictGet fields "is_complete" with
    | none => rfl
    | some v =>
      cases v with
      | bool b => exact absurd hv (h b)
      | null => rfl
      | num n => rfl
      | str s => rfl
      | arr xs => rfl

theorem refined_search_of_no_new (o : Oracle) (refl : Reflection)
    (prev : List Passage) (h : List String)
    (hempty : (add_new_queries h refl.search_queries).1 = []) :
    refined_search o refl prev h =
      ([], (add_new_queries h refl.search_queries).2, []) := by
  unfold refined_search
  by_cases hq : refl.search_queries = []
  · simp [hq, add_new_queries]
  · rw [if_neg (by simpa [List.isEmpty_iff] using hq)]
    rw [if_pos (by simpa [List.isEmpty_iff] using hempty)]

theorem run_iterations_succ_of_no_new_queries (o : Oracle) (uq : String)
    (rem it : Nat) (st : LoopState)
    (hc : (reflect_on_answer o uq st.current_answer
      st.all_search_results).is_complete = false)
    (hempty : (add_new_queries st.query_history
      (reflect_on_answer o uq st.current_answer
        st.all_search_results).search_queries).1 = []) :
    run_iterations o uq (rem + 1) it st =
      { step_record o uq it st with
        query_history := (add_new_queries st.query_history
          (reflect_on_answer o uq st.current_answer
            st.all_search_results).search_queries).2 } := by
  rw [run_iterations_succ_of_empty o uq rem it st hc
    (by rw [refined_search_of_no_new o _ _ _ hempty]; rfl)]
  rw [refined_search_of_no_new o _ _ _ hempty]
  simp [step_record]

theorem query_eq (o : Oracle) (mi : Int) (uq : String) :
    query o mi uq =
      ({ query := uq
         final_answer :=
           (run_iterations o uq mi.toNat 1 (initial_state o uq)).current_answer
         total_search_results := (run_iterations o uq mi.toNat 1
           (initial_state o uq)).all_search_results.length
         iterations := (run_iterations o uq mi.toNat 1
           (initial_state o uq)).iteration_history.length
         iteration_history := (run_iterations o uq mi.toNat 1
           (initial_state o uq)).iteration_history
         all_search_results := (run_iterations o uq mi.toNat 1
           (initial_state o uq)).all_search_results },
       (run_iterations o uq mi.toNat 1 (initial_state o uq)).trace) :=
  rfl

end AgenticRAG

/-! ## The claims -/

open AgenticRAG

/-- C1 (counterexample): with configuration `max_iterations = -1` — a
value the `int`-typed parameter admits and the spec's degenerate-
configuration clause contemplates — the loop body never runs, the
iteration history is empty, and `len(iterationHistory) ≤ maxIterations`
is false, since `0 ≤ -1` fails. -/
theorem bounded_iterations_fails_for_negative_max :
    ¬ (((query oracle0 (-1) "q").1.iteration_history.length : Int) ≤ -1) := by
  decide

/-- C1 (amended): for every session,
`len(iterationHistory) ≤ max(maxIterations, 0)`; in particular the stated
bound `len(iterationHistory) ≤ maxIterations` holds whenever
`maxIterations ≥ 0`. -/
theorem bounded_iterations_le_toNat (o : Oracle) (mi : Int) (uq : String) :
    (query o mi uq).1.iteration_history.length ≤ mi.toNat := by
  rw [query_eq]
  have h := run_iterations_length_le o uq mi.toNat 1 (initial_state o uq)
  simpa [initial_state] using h

/-- C2: within one session no query string is issued to the retriever
twice: the initial question is registered in the query history, every
accepted refinement query is registered before it is issued, and every
proposed query already present in the history is dropped, so the
sequence of queries sent to `db.search` has no duplicates. -/
theorem no_duplicate_queries (o : Oracle) (mi : Int) (uq : String) :
    (searched_queries (query o mi uq).2).Nodup := by
  rw [query_eq]
  refine (run_iterations_trace_inv o uq mi.toNat 1 (initial_state o uq)
    ⟨?_, ?_⟩).1
  · have h1 : searched_queries (initial_state o uq).trace = [uq] := rfl
    rw [h1]
    simp
  · intro q hq
    have h1 : searched_queries (initial_state o uq).trace = [uq] := rfl
    rw [h1] at hq
    simp only [List.mem_singleton] at hq
    subst hq
    simp [initial_state, history_add]

/-- C3 (counterexample): `query` copies the initial retrieval results
into the accumulated evidence without any deduplication, so a single
retriever response containing the same passage text twice already makes
the final `all_search_results` carry duplicate texts. -/
theorem duplicate_evidence_from_duplicate_retrieval :
    ¬ ((query oracle_dup 0 "q").1.all_search_results.map
      Passage.text).Nodup := by
  decide

/-- C3 (amended): provided the initial retrieval returns passages with
pairwise-distinct texts, the accumulated evidence in the final result has
pairwise-distinct texts: every refinement round deduplicates each
query's results against everything merged so far, including passages
merged by earlier queries of the same round. -/
theorem no_duplicate_evidence_of_initial_nodup (o : Oracle) (mi : Int)
    (uq : String) (hinit : ((o.search uq 5).map Passage.text).Nodup) :
    ((query o mi uq).1.all_search_results.map Passage.text).Nodup := by
  rw [query_eq]
  exact run_iterations_evidence_nodup o uq mi.toNat 1 (initial_state o uq)
    hinit

theorem no_duplicate_evidence_witness :
    ((oracle0.search "q" 5).map Passage.text).Nodup ∧
      ((query oracle0 3 "q").1.all_search_results.map Passage.text).Nodup :=
  ⟨by decide, no_duplicate_evidence_of_initial_nodup oracle0 3 "q" (by decide)⟩

/-- C7 (counterexample): `refined_search` enforces no cap on the number
of new queries per round — a verdict proposing four fresh queries gets
all four issued to the retriever, refuting the claimed cap of 3 (which
only the prompt text requests). -/
theorem refinement_cap_not_enforced :
    ¬ ((searched_queries (refined_search oracle0 many_queries_reflection []
      ["orig"]).2.2).length ≤ 3) := by
  decide

/-- C7 (amended): refinement planning filters exactly — the queries
issued in a round are pairwise distinct and are precisely the proposed
hints that are non-empty and not yet registered in the query history; no
per-round cap is enforced by the code. -/
theorem refinement_filter_exact (o : Oracle) (refl : Reflection)
    (prev : List Passage) (h : List String) :
    (searched_queries (refined_search o refl prev h).2.2).Nodup ∧
      ∀ q, q ∈ searched_queries (refined_search o refl prev h).2.2 ↔
        q ∈ refl.search_queries ∧ q ≠ "" ∧ q ∉ h := by
  rw [refined_search_searched]
  exact ⟨add_new_queries_nodup h _, fun q => add_new_queries_mem_fst h _ q⟩

/-- C8: with `max_iterations ≤ 0` the loop range `range(1, n + 1)` is
empty, so `query` still performs exactly the INITIAL step — one retrieval
and one answer generation — and returns a result whose iteration history
is empty and whose final answer is the initial answer; reflect and refine
are never entered (the trace holds no reflect event). -/
theorem degenerate_config_single_round (o : Oracle) (mi : Int) (uq : String)
    (hmi : mi ≤ 0) :
    query o mi uq =
      ({ query := uq
         final_answer := generate_initial_answer o uq (o.search uq 5)
         total_search_results := (o.search uq 5).length
         iterations := 0
         iteration_history := []
         all_search_results := o.search uq 5 },
       [Event.search_call uq 5, Event.answer_call]) := by
  rw [query_eq, Int.toNat_of_nonpos hmi]
  rfl

theorem degenerate_config_single_round_witness :
    (0 : Int) ≤ 0 ∧
      query oracle0 0 "q" =
        ({ query := "q"
           final_answer := generate_initial_answer oracle0 "q"
             (oracle0.search "q" 5)
           total_search_results := (oracle0.search "q" 5).length
           iterations := 0
           iteration_history := []
           all_search_results := oracle0.search "q" 5 },
         [Event.search_call "q" 5, Event.answer_call]) :=
  ⟨by decide, degenerate_config_single_round oracle0 0 "q" (by decide)⟩

/-- C4 (counterexample): a payload that does not match the expected
structure — `is_complete` is a boolean but `search_queries` is not a
list — is *not* replaced by the safe default verdict: the code keeps the
payload's `is_complete = true` and only resets the query list, so the
reflection step does not substitute `is_complete = false` as claimed. -/
theorem malformed_field_keeps_is_complete :
    (reflect_on_answer oracle_field_bad "q" "a" []).is_complete = true ∧
      reflect_on_answer oracle_field_bad "q" "a" [] ≠ defaultReflection := by
  decide

/-- C4 (amended): for every reflection response whose payload fails JSON
decoding, is not an object, or lacks a boolean `is_complete` — the cases
in which the `except` branch runs — the reflection step substitutes the
default verdict (`is_complete = false`, empty query list) without
raising, and a session hitting this on its first round terminates after
that round: one `IterationRecord`, the final answer unchanged, and no
retrieval beyond the original question.  (A payload whose only defect is
a non-list `search_queries` keeps its `is_complete` and only the query
list is replaced by `[]`.) -/
theorem default_verdict_on_unparseable_payload (o : Oracle) (mi : Int)
    (uq : String) (hmi : 1 ≤ mi)
    (hbad : bad_payload (o.loads (strip_code_fences (o.chat_reflect uq
      (generate_initial_answer o uq (o.search uq 5))
      (o.search uq 5).length)))) :
    reflect_on_answer o uq (generate_initial_answer o uq (o.search uq 5))
        (o.search uq 5) = defaultReflection ∧
      (query o mi uq).1.iteration_history =
        [{ iteration := 1
           answer := generate_initial_answer o uq (o.search uq 5)
           reflection := defaultReflection
           search_results_count := (o.search uq 5).length }] ∧
      (query o mi uq).1.final_answer =
        generate_initial_answer o uq (o.search uq 5) ∧
      searched_queries (query o mi uq).2 = [uq] := by
  have hrefl : reflect_on_answer o uq (generate_initial_answer o uq
      (o.search uq 5)) (o.search uq 5) = defaultReflection :=
    parse_reflection_of_bad _ hbad
  have hrefl' : reflect_on_answer o uq (initial_state o uq).current_answer
      (initial_state o uq).all_search_results = defaultReflection := hrefl
  have hk : mi.toNat = (mi.toNat - 1) + 1 := by omega
  have hstop := run_iterations_succ_of_no_new_queries o uq (mi.toNat - 1) 1
    (initial_state o uq) (by rw [hrefl']; rfl) (by rw [hrefl']; rfl)
  refine ⟨?_, ?_, ?_, ?_⟩
  · exact hrefl
  · rw [query_eq]
    show (run_iterations o uq mi.toNat 1 (initial_state o uq)).iteration_history = _
    rw [hk, hstop]
    simp [step_record, initial_state, hrefl]
  · rw [query_eq]
    show (run_iterations o uq mi.toNat 1 (initial_state o uq)).current_answer = _
    rw [hk, hstop]
    simp [step_record, initial_state]
  · rw [query_eq]
    show searched_queries
      (run_iterations o uq mi.toNat 1 (initial_state o uq)).trace = _
    rw [hk, hstop]
    rfl

theorem default_verdict_on_unparseable_payload_witness :
    (1 : Int) ≤ 1 ∧
      (query oracle0 1 "q").1.final_answer =
        generate_initial_answer oracle0 "q" (oracle0.search "q" 5) :=
  ⟨by decide, (default_verdict_on_unparseable_payload oracle0 1 "q"
    (by decide) trivial).2.2.1⟩

/-- C5: if the first reflection verdict reports the answer complete
(`is_complete = true`), the session terminates with exactly one
`IterationRecord`, a final answer equal to the initial answer, and no
retrieval call beyond the original question. -/
theorem early_termination_on_completeness (o : Oracle) (mi : Int)
    (uq : String) (hmi : 1 ≤ mi)
    (hc : (reflect_on_answer o uq (generate_initial_answer o uq
      (o.search uq 5)) (o.search uq 5)).is_complete = true) :
    (query o mi uq).1.iteration_history.length = 1 ∧
      (query o mi uq).1.final_answer =
        generate_initial_answer o uq (o.search uq 5) ∧
      searched_queries (query o mi uq).2 = [uq] := by
  have hc' : (reflect_on_answer o uq (initial_state o uq).current_answer
      (initial_state o uq).all_search_results).is_complete = true := hc
  have hk : mi.toNat = (mi.toNat - 1) + 1 := by omega
  have hstop := run_iterations_succ_of_complete o uq (mi.toNat - 1) 1
    (initial_state o uq) hc'
  refine ⟨?_, ?_, ?_⟩
  · rw [query_eq]
    show (run_iterations o uq mi.toNat 1
      (initial_state o uq)).iteration_history.length = 1
    rw [hk, hstop]
    simp [step_record, initial_state]
  · rw [query_eq]
    show (run_iterations o uq mi.toNat 1
      (initial_state o uq)).current_answer = _
    rw [hk, hstop]
    simp [step_record, initial_state]
  · rw [query_eq]
    show searched_queries
      (run_iterations o uq mi.toNat 1 (initial_state o uq)).trace = _
    rw [hk, hstop]
    rfl

theorem early_termination_on_completeness_witness :
    (1 : Int) ≤ 1 ∧
      (reflect_on_answer oracle_complete "q" (generate_initial_answer
        oracle_complete "q" (oracle_complete.search "q" 5))
        (oracle_complete.search "q" 5)).is_complete = true ∧
      (query oracle_complete 1 "q").1.iteration_history.length = 1 :=
  ⟨by decide, by decide, (early_termination_on_completeness oracle_complete
    1 "q" (by decide) (by decide)).1⟩

/-- C6: whenever refinement planning accepts zero new queries for a round
(every proposed query is empty or already registered), the session
terminates that round: the trace gains only the round's reflection event
(so no retrieval call and no answer-generation call are added), the
evidence and the current answer are unchanged, and only that round's
record is appended. -/
theorem termination_on_empty_refinement_plan (o : Oracle) (uq : String)
    (rem it : Nat) (st : LoopState)
    (hc : (reflect_on_answer o uq st.current_answer
      st.all_search_results).is_complete = false)
    (hempty : (add_new_queries st.query_history
      (reflect_on_answer o uq st.current_answer
        st.all_search_results).search_queries).1 = []) :
    searched_queries (run_iterations o uq (rem + 1) it st).trace =
        searched_queries st.trace ∧
      answer_calls (run_iterations o uq (rem + 1) it st).trace =
        answer_calls st.trace ∧
      (run_iterations o uq (rem + 1) it st).trace =
        st.trace ++ [Event.reflect_call] ∧
      (run_iterations o uq (rem + 1) it st).all_search_results =
        st.all_search_results ∧
      (run_iterations o uq (rem + 1) it st).current_answer =
        st.current_answer ∧
      (run_iterations o uq (rem + 1) it st).iteration_history =
        st.iteration_history ++
          [{ iteration := it
             answer := st.current_answer
             reflection := reflect_on_answer o uq st.current_answer
               st.all_search_results
             search_results_count := st.all_search_results.length }] := by
  rw [run_iterations_succ_of_no_new_queries o uq rem it st hc hempty]
  refine ⟨?_, ?_, ?_, ?_, ?_, ?_⟩
  · simp [step_record, searched_queries_append, searched_queries_reflect]
  · simp [step_record, answer_calls]
  · simp [step_record]
  · simp [step_record]
  · simp [step_record]
  · simp [step_record]

theorem termination_on_empty_refinement_plan_witness :
    ((reflect_on_answer oracle0 "q" (initial_state oracle0 "q").current_answer
        (initial_state oracle0 "q").all_search_results).is_complete =
      false) ∧
      (run_iterations oracle0 "q" (0 + 1) 1 (initial_state oracle0 "q")).trace =
        (initial_state oracle0 "q").trace ++ [Event.reflect_call] :=
  ⟨by decide, (termination_on_empty_refinement_plan oracle0 "q" 0 1
    (initial_state oracle0 "q") (by decide) (by decide)).2.2.1⟩

/-- C9: for every input text and every `chunk_size ≥ 1`, every chunk
returned by `RecursiveTextSplitter.split_text` has length at most
`chunk_size`, under any separator priority list (the recursive
separator descent packs stripped pieces greedily and falls back to hard
character slicing, and every emitted chunk respects the bound). -/
theorem split_text_chunk_length_le (text : String) (chunk_size : Nat)
    (_hcs : 1 ≤ chunk_size) (separators : List String) :
    ∀ c ∈ RecursiveTextSplitter.split_text chunk_size separators text,
      c.length ≤ chunk_size := by
  intro c hc
  unfold RecursiveTextSplitter.split_text at hc
  by_cases h1 : text = "" ∨ pyStrip text = ""
  · rw [if_pos h1] at hc
    simp at hc
  · rw [if_neg h1] at hc
    by_cases h2 : text.length ≤ chunk_size
    · rw [if_pos h2] at hc
      simp only [List.mem_singleton] at hc
      subst hc
      exact le_trans (pyStrip_length_le text) h2
    · rw [if_neg h2] at hc
      exact RecursiveTextSplitter.recursive_split_length_le chunk_size
        separators text c hc

theorem split_text_chunk_length_le_witness :
    1 ≤ 2 ∧
      "ab" ∈ RecursiveTextSplitter.split_text 2
        RecursiveTextSplitter.default_separators "abcde" ∧
      ("ab" : String).length ≤ 2 :=
  ⟨by decide, by decide, split_text_chunk_length_le "abcde" 2 (by decide)
    RecursiveTextSplitter.default_separators "ab" (by decide)⟩

theorem get_text_embedding_eq_expected_witness :
    get_text_embedding cache_ex id api_ex ["hit", "xx", "hit"] =
        expected_embeddings cache_ex id String.length ["hit", "xx", "hit"] ∧
      expected_embeddings cache_ex id String.length ["hit", "xx", "hit"] =
        [100, 2, 100] :=
  ⟨get_text_embedding_eq_expected cache_ex id api_ex String.length
    (fun _ => rfl) ["hit", "xx", "hit"], by decide⟩

